import Mathlib

/-!
Verification of core claims about the vos kernel (RISC-V 64, Rust) against a
shallow embedding of its source in Lean 4.

Machine integers are modelled as `Nat` with explicit `% 2^w` wherever the Rust
code can wrap or truncate.  Bitwise Rust operators are translated to the
corresponding `Nat` operators (`&&&`, `|||`, `^^^`, `<<<`, `>>>`); on `Nat`
these agree with the fixed-width versions as long as operands are in range,
which every proof tracks explicitly.

Each namespace below embeds one source module:

* `Preempt`  — src/sched/preempt.rs
* `Trap`     — src/sc/trap.rs
* `Sched`    — src/sched/mod.rs + src/smp/cpu_info.rs + src/arch/cpu/riscv.rs
* `Slub`     — src/mm/kmem/mod.rs (alloc_slab) + src/mm/kmem/slub.rs
* `Kmem`     — src/mm/kmem/mod.rs (kmem_init / kmalloc, AllocList heap)
* `Buddy`    — src/mm/page.rs (+ src/util/list.rs, src/util/bit.rs)
* `Mmu`      — src/mm/mmu.rs
-/

/-! ## Arithmetic helpers for the bitwise translations -/

/-- Bits of `2^w - 2^s` (the width-`w` complement of the low mask `2^s - 1`). -/
theorem testBit_two_pow_sub_two_pow {w s i : Nat} (hs : s ≤ w) :
    (2 ^ w - 2 ^ s).testBit i = (decide (s ≤ i) && decide (i < w)) := by
  have hss : s + (w - s) = w := by omega
  have h : 2 ^ w - 2 ^ s = 2 ^ s * (2 ^ (w - s) - 1) := by
    rw [Nat.mul_sub_one, ← Nat.pow_add, hss]
  rw [h, Nat.mul_comm, ← Nat.shiftLeft_eq, Nat.testBit_shiftLeft]
  rcases Nat.lt_or_ge i s with hi | hi
  · simp [Nat.not_le_of_lt hi, hi]
  · simp only [hi, Nat.testBit_two_pow_sub_one]
    simp only [decide_True, Bool.true_and, decide_eq_decide]
    omega

/-- Masking with the high mask `2^w - 2^s` clears the low `s` bits: for
`x < 2^w` it equals `x / 2^s * 2^s`. -/
theorem and_high_mask {x s w : Nat} (hs : s ≤ w) (hx : x < 2 ^ w) :
    x &&& (2 ^ w - 2 ^ s) = x / 2 ^ s * 2 ^ s := by
  apply Nat.eq_of_testBit_eq
  intro i
  rw [Nat.testBit_and, testBit_two_pow_sub_two_pow hs]
  rw [← Nat.shiftLeft_eq, ← Nat.shiftRight_eq_div_pow]
  rw [Nat.testBit_shiftLeft, Nat.testBit_shiftRight]
  rcases Nat.lt_or_ge i s with hi | hi
  · simp [Nat.not_le_of_lt hi, hi]
  · have hd : (decide (s ≤ i)) = true := by simp [hi]
    rw [hd]
    simp only [Bool.true_and, Bool.and_true, Nat.add_sub_cancel' hi]
    rcases Nat.lt_or_ge i w with hw | hw
    · simp [hw]
    · have hxi : x < 2 ^ i := lt_of_lt_of_le hx (Nat.pow_le_pow_right (by omega) hw)
      simp [Nat.testBit_lt_two_pow hxi, Nat.not_lt_of_le hw]

/-- Or of a multiple of `2^i` with a value below `2^i` is plain addition. -/
theorem or_eq_add_of_lt {a b i : Nat} (ha : a % 2 ^ i = 0) (hb : b < 2 ^ i) :
    a ||| b = a + b := by
  obtain ⟨c, hc⟩ : ∃ c, a = 2 ^ i * c :=
    ⟨a / 2 ^ i, (Nat.mul_div_cancel' (Nat.dvd_of_mod_eq_zero ha)).symm⟩
  subst hc
  exact (Nat.mul_add_lt_is_or hb c).symm

/-! ## src/sched/preempt.rs — the preempt counter word

The per-task preempt state is a 64-bit union word: the low 32 bits are the
packed `count` subword (preempt / softirq / hardirq / NMI depths), the high
32 bits are the `need_resched` word.  `preempt_count()` reads the `count`
subword; `preempt_count_add`/`preempt_count_sub` read-modify-write only that
subword, leaving the high word unchanged (little-endian layout, forced by
`PREEMPT_NEED_RESCHED = 1u64 << 32` and by `preempt_count_dec_and_test`
writing `pc as u32` into `count`). -/

namespace Preempt

/-- From src/sched/preempt.rs line 38-41: the bit widths of the four depth
fields packed into the 32-bit count subword. -/
def PREEMPT_BITS : Nat := 8

def SOFTIRQ_BITS : Nat := 8

def HARDIRQ_BITS : Nat := 4

def NMI_BITS : Nat := 4

/-- Field shifts (preempt.rs lines 43-46). -/
def PREEMPT_SHIFT : Nat := 0

def SOFTIRQ_SHIFT : Nat := PREEMPT_SHIFT + PREEMPT_BITS

def HARDIRQ_SHIFT : Nat := SOFTIRQ_SHIFT + SOFTIRQ_BITS

def NMI_SHIFT : Nat := HARDIRQ_SHIFT + HARDIRQ_BITS

/-- The helper `__irq_mask(bits) = (1u32 << bits) - 1` (preempt.rs line 48). -/
def irq_mask (bits : Nat) : Nat := (1 <<< bits) - 1

/-- PREEMPT_MASK (preempt.rs line 52). -/
def PREEMPT_MASK : Nat := irq_mask PREEMPT_BITS <<< PREEMPT_SHIFT

/-- SOFTIRQ_MASK (preempt.rs line 53). -/
def SOFTIRQ_MASK : Nat := irq_mask SOFTIRQ_BITS <<< SOFTIRQ_SHIFT

/-- HARDIRQ_MASK (preempt.rs line 54). -/
def HARDIRQ_MASK : Nat := irq_mask HARDIRQ_BITS <<< HARDIRQ_SHIFT

/-- NMI_MASK (preempt.rs line 55). -/
def NMI_MASK : Nat := irq_mask NMI_BITS <<< NMI_SHIFT

/-- The need-resched marker constant, preempt.rs line 65:
`pub const PREEMPT_NEED_RESCHED: u64 = 1u64 << 32;`. -/
def PREEMPT_NEED_RESCHED : Nat := 1 <<< 32

/-- Read the `count` subword of the composite word (read_once of the u32
field, i.e. the low 32 bits). -/
def preempt_count (w : Nat) : Nat := w % 2 ^ 32

/-- The code reads the u32 `count`, adds `v` and writes the u32 back, leaving
the high word untouched (preempt.rs `preempt_count_add`). -/
def preempt_count_add (v w : Nat) : Nat :=
  w - w % 2 ^ 32 + (w % 2 ^ 32 + v) % 2 ^ 32

/-- The u32 wrapping subtraction of `preempt_count_sub`, again only on the
low subword. -/
def preempt_count_sub (v w : Nat) : Nat :=
  w - w % 2 ^ 32 + (w % 2 ^ 32 + (2 ^ 32 - v % 2 ^ 32)) % 2 ^ 32

/-- The operation `preempt_disable()` = `preempt_count_add(1)` followed by a
compiler barrier (a no-op on the state). -/
def preempt_disable (w : Nat) : Nat := preempt_count_add 1 w

/-- The operation `preempt_enable_no_resched()` = barrier then
`preempt_count_sub(1)`. -/
def preempt_enable_no_resched (w : Nat) : Nat := preempt_count_sub 1 w

theorem preempt_disable_count {w : Nat} (h : preempt_count w < 2 ^ 32 - 1) :
    preempt_count (preempt_disable w) = preempt_count w + 1 := by
  unfold preempt_count at h ⊢
  unfold preempt_disable preempt_count_add
  omega

theorem preempt_enable_count {w : Nat} (h : 0 < preempt_count w) :
    preempt_count (preempt_enable_no_resched w) = preempt_count w - 1 := by
  unfold preempt_count at h ⊢
  unfold preempt_enable_no_resched preempt_count_sub
  omega

theorem preempt_disable_iter_count {w : Nat} (N : Nat) (h0 : preempt_count w = 0)
    (hN : N < 2 ^ 32) : preempt_count (preempt_disable^[N] w) = N := by
  induction N with
  | zero => simpa using h0
  | succ n ih =>
      have hc : preempt_count (preempt_disable^[n] w) = n := ih (by omega)
      rw [Function.iterate_succ_apply', preempt_disable_count (by rw [hc]; omega), hc]

theorem preempt_enable_iter_count {w : Nat} (M N : Nat) (hM : M ≤ N)
    (h0 : preempt_count w = N) :
    preempt_count (preempt_enable_no_resched^[M] w) = N - M := by
  induction M with
  | zero => simpa using h0
  | succ m ih =>
      have hc : preempt_count (preempt_enable_no_resched^[m] w) = N - m := ih (by omega)
      rw [Function.iterate_succ_apply', preempt_enable_count (by rw [hc]; omega), hc]
      omega

end Preempt

/-! ## src/sc/trap.rs — trap dispatch -/

namespace Trap

/-- Which branch of the `handle_trap` match is taken. -/
inductive Branch where
  | softwareIrq
  | timerIrq
  | externalIrq
  | unhandledIrq
  | instrFault
  | breakpoint
  | memFault
  | ecallFromU
  | pageFault
  | unhandledExc
  deriving DecidableEq, Repr

/-- SPP test (trap.rs `trap_from_s_mode`): bit 8 of `sstatus`. -/
def trap_from_s_mode (status : Nat) : Bool := status &&& 0x100 ≠ 0

/-- The interrupt bit: `(cause as isize).is_negative()` on a 64-bit value. -/
def is_async (cause : Nat) : Bool := decide (2 ^ 63 ≤ cause % 2 ^ 64)

/-- The exception code: `(cause << 1) >> 1` on usize clears the top bit. -/
def exp_code (cause : Nat) : Nat := (((cause % 2 ^ 64) <<< 1) % 2 ^ 64) >>> 1

/-- The branch selected by the two match statements of `handle_trap`. -/
def trap_branch (cause : Nat) : Branch :=
  let e := exp_code cause
  if is_async cause then
    if e = 1 then .softwareIrq
    else if e = 5 then .timerIrq
    else if e = 9 then .externalIrq
    else .unhandledIrq
  else
    if e = 0 ∨ e = 1 ∨ e = 2 then .instrFault
    else if e = 3 then .breakpoint
    else if e = 4 ∨ e = 5 ∨ e = 6 ∨ e = 7 then .memFault
    else if e = 8 then .ecallFromU
    else if e = 12 ∨ e = 13 ∨ e = 15 then .pageFault
    else .unhandledExc

/-- The return pc of `handle_trap` (trap.rs lines 42-135), `none` meaning the
handler panics.  The `status` argument feeds the `trap_from_s_mode` checks of
the fault branches. -/
def handle_trap (epc cause status : Nat) : Option Nat :=
  match trap_branch cause with
  | .softwareIrq => some epc
  | .timerIrq => some epc
  | .externalIrq => some epc
  | .unhandledIrq => none
  | .instrFault => if trap_from_s_mode status then none else some epc
  | .breakpoint => some (epc + 2)
  | .memFault => if trap_from_s_mode status then none else some epc
  | .ecallFromU => some (epc + 4)
  | .pageFault => some (epc + 4)
  | .unhandledExc => none

theorem exp_code_eq {cause : Nat} (h : cause < 2 ^ 64) :
    exp_code cause = cause % 2 ^ 63 := by
  unfold exp_code
  rw [Nat.shiftLeft_eq, Nat.shiftRight_eq_div_pow, Nat.mod_eq_of_lt h]
  omega

end Trap

/-! ## The scheduler time-slice (src/sched/mod.rs, src/smp/cpu_info.rs,
src/arch/cpu/riscv.rs) -/

namespace Sched

/-- Per-second divisor for a normal task slice (cpu_info.rs line 26). -/
def TIME_SLICE_OF_NORMAL : Nat := 128

/-- Per-second divisor for a realtime task slice (cpu_info.rs line 29). -/
def TIME_SLICE_OF_REALTIME : Nat := 256

/-- Modelled from the spec: `CpuInfo::get_time_slice_normal` is called by
`schedule()` but its definition is missing from the source tree (only the
divisor constant `TIME_SLICE_OF_NORMAL` and the call site exist).  Per the
spec, a normal task gets a slice of `timebase_freq/128` ticks. -/
def get_time_slice_normal (timebase_freq : Nat) : Nat :=
  timebase_freq / TIME_SLICE_OF_NORMAL

/-- Modelled from the spec: `CpuInfo::get_time_slice_realtime` is called by
`schedule()` but its definition is missing from the source tree (only the
divisor constant `TIME_SLICE_OF_REALTIME` and the call site exist).  Per the
spec, a realtime task gets a slice of `timebase_freq/256` ticks. -/
def get_time_slice_realtime (timebase_freq : Nat) : Nat :=
  timebase_freq / TIME_SLICE_OF_REALTIME

/-- The realtime test of a task (task.rs `is_realtime_task`): static priority
strictly above 50. -/
def is_realtime_task (priority : Int) : Bool := priority > 50

/-- The register write of `stimecmp_write_delta` (riscv.rs lines 321-332):
`rdtime`, 64-bit wrapping add of the delta, `csrw stimecmp`. -/
def stimecmp_write_delta (now delta : Nat) : Nat := (now + delta) % 2 ^ 64

/-- The new `stimecmp` value produced by the slice-selection step of
`schedule()` (sched/mod.rs lines 124-129) for a task of the given static
priority on a hart whose `time` reads `now`. -/
def schedule_stimecmp (priority : Int) (timebase_freq now : Nat) : Nat :=
  stimecmp_write_delta now
    (if is_realtime_task priority then get_time_slice_realtime timebase_freq
     else get_time_slice_normal timebase_freq)

end Sched

/-! ## src/mm/kmem — slab freelist threading (alloc_slab, set_free_pointer) -/

namespace Slub

/-- The write of `slub::set_free_pointer(object, fp)`: store `fp` at address
`object` (free pointer lives at offset 0 of the object). -/
def set_free_pointer (mem : Nat → Nat) (object fp : Nat) : Nat → Nat :=
  fun a => if a = object then fp else mem a

/-- The packing `make_counters(objects, ptr, frozen)` from slub.rs line 93:
`((objects as usize) << 48) | ptr | (frozen as usize)`; `objects` is a u16. -/
def make_counters (objects ptr : Nat) (frozen : Bool) : Nat :=
  ((objects % 2 ^ 16) <<< 48) ||| ptr ||| (if frozen then 1 else 0)

/-- The unpacking `Slub::get_free_list` (slub.rs line 120):
`counters & (!(0xffffusize << 48) ^ 0x1usize)`. -/
def get_free_list (counters : Nat) : Nat :=
  counters &&& ((2 ^ 64 - 1 - (0xffff <<< 48)) ^^^ 0x1)

/-- The object-threading loop of `alloc_slab` (kmem/mod.rs lines 503-509):
`let mut p = start; for _ in 0..object_count { set_free_pointer(p, p + size);
p += size; }` followed by the terminating `set_free_pointer(p, 0)` after the
loop, where `p` then equals `start + object_count * size`. -/
def thread_loop (size : Nat) : Nat → Nat → (Nat → Nat) → (Nat → Nat)
  | 0, p, mem => set_free_pointer mem p 0
  | Nat.succ n, p, mem => thread_loop size n (p + size) (set_free_pointer mem p (p + size))

/-- The slab memory image produced by `alloc_slab` for a cache with padded
object size `size` and `n` objects per slab, on a slab page starting at
address `start` (initial contents of the fresh page are irrelevant, the loop
only writes). -/
def alloc_slab_mem (start size n : Nat) (mem : Nat → Nat) : Nat → Nat :=
  thread_loop size n start mem

/-- The `counters` word installed by `alloc_slab` (kmem/mod.rs line 500):
`make_counters(object_count, start, false)`. -/
def alloc_slab_counters (start n : Nat) : Nat := make_counters n start false

end Slub

/-! ## src/mm/page.rs — argument checking of free_pages_bulk and the bitmap
sizing arithmetic of init -/

namespace Buddy

/-- Trailing zero bits of a u64 value (64 for value 0), scanning the 64 bits
from the least significant end. -/
def tz_loop : Nat → Nat → Nat
  | 0, _ => 0
  | Nat.succ f, v => if v % 2 = 1 then 0 else 1 + tz_loop f (v / 2)

/-- Rust `usize::trailing_zeros`. -/
def trailing_zeros (v : Nat) : Nat := tz_loop 64 (v % 2 ^ 64)

/-- From src/util/align.rs: `get_order(alignment) = alignment.trailing_zeros()`. -/
def get_order (alignment : Nat) : Nat := trailing_zeros alignment

/-- From src/util/align.rs `align_up(val, order)`:
`let o = (1usize << order) - 1; (val + o) & !o` with 64-bit usize. -/
def align_up (val order : Nat) : Nat :=
  ((val + ((1 <<< order) - 1)) % 2 ^ 64) &&& (2 ^ 64 - (1 <<< order))

/-- The panic condition at the head of `free_pages_bulk` (page.rs lines
572-577): `mask = !0usize << order`, panic when `page_idx & !mask != 0` or
when `page_idx + 1usize << order > zone.max_pages`.  By Rust operator
precedence the second operand is `(page_idx + 1) << order` (`+` binds
tighter than `<<`). -/
def free_check_panics (page_idx order max_pages : Nat) : Bool :=
  (page_idx &&& ((1 <<< order) - 1) ≠ 0) || ((page_idx + 1) <<< order > max_pages)

/-- The bitmap byte count reserved by `init` (page.rs lines 307-310):
`bitmap_len += (max_alloc_pages >> (i + 1usize) + 7) / 8` for orders
`0..MAX_FREE_AREA_ORDER-1`.  By Rust operator precedence the shift amount is
`(i + 1) + 7`. -/
def init_bitmap_len (max_alloc_pages : Nat) : Nat :=
  (List.range 9).foldl (fun acc i => acc + (max_alloc_pages >>> (i + 1 + 7)) / 8) 0

/-- The bitmap bytes actually consumed by the per-order bitmaps: `init` (page.rs
line 320) advances each successive bitmap base pointer by
`((max_alloc_pages >> (i + 1usize)) + 7) / 8` bytes, i.e. by
`ceil(max_alloc_pages / 2^(i+1) / 8)`, for orders `0..MAX_FREE_AREA_ORDER-1`. -/
def init_bitmap_needed (max_alloc_pages : Nat) : Nat :=
  (List.range 9).foldl (fun acc i => acc + ((max_alloc_pages >>> (i + 1)) + 7) / 8) 0

/-- The Page descriptor array base chosen by `init` (page.rs line 311):
`page_start = align_up(bitmap_start + bitmap_len, get_order(32usize))`. -/
def init_page_start (bitmap_start max_alloc_pages : Nat) : Nat :=
  align_up (bitmap_start + init_bitmap_len max_alloc_pages) (get_order 32)

end Buddy

/-! ## Claim theorems (C3 - C9) -/

/-- Claim C5 counterexample: the code constant used to mark a pending
reschedule is `PREEMPT_NEED_RESCHED = 1u64 << 32` (src/sched/preempt.rs line
65), not `1 << 63` as the claim states. -/
theorem C5_counterexample : Preempt.PREEMPT_NEED_RESCHED ≠ 1 <<< 63 := by decide

/-- Claim C5 (amended): the NEED_RESCHED marker constant in the composite
64-bit preempt word equals `1 << 32` (the lowest bit of the upper
need-resched subword), while bits 0-7 hold the preemption depth, bits 8-15
the softirq depth, bits 16-19 the hardirq depth and bits 20-23 the NMI depth. -/
theorem C5_preempt_word_layout :
    Preempt.PREEMPT_NEED_RESCHED = 1 <<< 32 ∧
    Preempt.PREEMPT_MASK = 0xff ∧
    Preempt.SOFTIRQ_MASK = 0xff00 ∧
    Preempt.HARDIRQ_MASK = 0xf0000 ∧
    Preempt.NMI_MASK = 0xf00000 := by decide

/-- Claim C9: starting from a composite preempt word whose count subword is
zero, `N` nested `preempt_disable` calls leave `preempt_count() = N`, and `N`
subsequent `preempt_enable_no_resched` calls return `preempt_count()` to
zero (for any `N` below the u32 range, no intervening interrupt activity). -/
theorem C9_preempt_nesting (N w : Nat) (h0 : Preempt.preempt_count w = 0)
    (hN : N < 2 ^ 32) :
    Preempt.preempt_count (Preempt.preempt_disable^[N] w) = N ∧
    Preempt.preempt_count
      (Preempt.preempt_enable_no_resched^[N] (Preempt.preempt_disable^[N] w)) = 0 := by
  have hd := Preempt.preempt_disable_iter_count N h0 hN
  refine ⟨hd, ?_⟩
  have := Preempt.preempt_enable_iter_count N N (le_refl N) hd
  simpa using this

/-- Claim C9 witness: the S4 scenario, two nested disables from an enabled
word (count 0, need-resched subword 1) give count 2, two enables give 0. -/
theorem C9_witness :
    Preempt.preempt_count (Preempt.preempt_disable^[2] (2 ^ 32)) = 2 ∧
    Preempt.preempt_count
      (Preempt.preempt_enable_no_resched^[2] (Preempt.preempt_disable^[2] (2 ^ 32))) = 0 :=
  C9_preempt_nesting 2 (2 ^ 32) (by decide) (by decide)

/-- Claim C8: `handle_trap` returns `epc` unchanged for the handled
asynchronous causes (interrupt codes 1, 5, 9; in particular
`scause = 0x8000_0000_0000_0005` selects the timer branch), returns `epc + 4`
for a synchronous ecall (cause 8), returns `epc + 2` for a breakpoint (cause
3), and panics (`none`) for every interrupt or exception code outside the
handled sets. -/
theorem C8_trap_dispatch (epc cause status : Nat) (h : cause < 2 ^ 64) :
    (2 ^ 63 ≤ cause ∧ (cause % 2 ^ 63 = 1 ∨ cause % 2 ^ 63 = 5 ∨ cause % 2 ^ 63 = 9) →
      Trap.handle_trap epc cause status = some epc) ∧
    Trap.trap_branch 0x8000000000000005 = Trap.Branch.timerIrq ∧
    (cause = 8 → Trap.handle_trap epc cause status = some (epc + 4)) ∧
    (cause = 3 → Trap.handle_trap epc cause status = some (epc + 2)) ∧
    (2 ^ 63 ≤ cause ∧ ¬(cause % 2 ^ 63 = 1 ∨ cause % 2 ^ 63 = 5 ∨ cause % 2 ^ 63 = 9) →
      Trap.handle_trap epc cause status = none) ∧
    (cause < 2 ^ 63 ∧
        ¬(cause = 0 ∨ cause = 1 ∨ cause = 2 ∨ cause = 3 ∨ cause = 4 ∨ cause = 5 ∨
          cause = 6 ∨ cause = 7 ∨ cause = 8 ∨ cause = 12 ∨ cause = 13 ∨ cause = 15) →
      Trap.handle_trap epc cause status = none) := by
  have he := Trap.exp_code_eq h
  have ha : Trap.is_async cause = decide (2 ^ 63 ≤ cause) := by
    unfold Trap.is_async
    rw [Nat.mod_eq_of_lt h]
  refine ⟨?_, by decide, ?_, ?_, ?_, ?_⟩
  · rintro ⟨hc, hcode⟩
    have hA : Trap.is_async cause = true := by rw [ha]; simpa using hc
    rcases hcode with h1 | h5 | h9
    · have hE : Trap.exp_code cause = 1 := by rw [he]; omega
      simp [Trap.handle_trap, Trap.trap_branch, hE, hA]
    · have hE : Trap.exp_code cause = 5 := by rw [he]; omega
      simp [Trap.handle_trap, Trap.trap_branch, hE, hA]
    · have hE : Trap.exp_code cause = 9 := by rw [he]; omega
      simp [Trap.handle_trap, Trap.trap_branch, hE, hA]
  · rintro rfl
    have hA : Trap.is_async 8 = false := by decide
    have hE : Trap.exp_code 8 = 8 := by decide
    simp [Trap.handle_trap, Trap.trap_branch, hE, hA]
  · rintro rfl
    have hA : Trap.is_async 3 = false := by decide
    have hE : Trap.exp_code 3 = 3 := by decide
    simp [Trap.handle_trap, Trap.trap_branch, hE, hA]
  · rintro ⟨hc, hcode⟩
    have hA : Trap.is_async cause = true := by rw [ha]; simpa using hc
    push_neg at hcode
    obtain ⟨h1, h5, h9⟩ := hcode
    simp only [Trap.handle_trap, Trap.trap_branch, hA, he, if_true]
    set E := cause % 2 ^ 63 with hEdef
    simp [h1, h5, h9, ← hEdef]
  · rintro ⟨hc, hcode⟩
    have hA : Trap.is_async cause = false := by rw [ha]; simpa using Nat.not_le_of_lt hc
    have hm : cause % 2 ^ 63 = cause := Nat.mod_eq_of_lt hc
    push_neg at hcode
    obtain ⟨h0, h1, h2, h3, h4, h5, h6, h7, h8, h12, h13, h15⟩ := hcode
    simp only [Trap.handle_trap, Trap.trap_branch, hA, he, hm, if_false]
    simp [h0, h1, h2, h3, h4, h5, h6, h7, h8, h12, h13, h15]

/-- Claim C8 witness: at the concrete causes of scenario S6 the dispatch
returns the claimed values. -/
theorem C8_witness :
    Trap.handle_trap 0x1000 0x8000000000000005 0 = some 0x1000 ∧
    Trap.handle_trap 0x1000 8 0 = some 0x1004 ∧
    Trap.handle_trap 0x1000 3 0 = some 0x1002 ∧
    Trap.handle_trap 0x1000 0x800000000000000a 0 = none ∧
    Trap.handle_trap 0x1000 16 0 = none := by
  have h5 := C8_trap_dispatch 0x1000 0x8000000000000005 0 (by decide)
  have h8 := C8_trap_dispatch 0x1000 8 0 (by decide)
  have h3 := C8_trap_dispatch 0x1000 3 0 (by decide)
  have ha := C8_trap_dispatch 0x1000 0x800000000000000a 0 (by decide)
  have hu := C8_trap_dispatch 0x1000 16 0 (by decide)
  exact ⟨h5.1 (by decide), h8.2.2.1 rfl, h3.2.2.2.1 rfl,
    ha.2.2.2.2.1 (by decide), hu.2.2.2.2.2 (by decide)⟩

/-- Claim C7: when `schedule()` selects a task, `stimecmp` is written with
the current time plus `timebase_freq/256` for a realtime task (static
priority above 50) and the current time plus `timebase_freq/128` for a
normal task.  The slice getters are modelled from the spec (their bodies are
absent from the tree); the divisors 256 and 128 are the source constants
`TIME_SLICE_OF_REALTIME` and `TIME_SLICE_OF_NORMAL`. -/
theorem C7_time_slice (priority : Int) (timebase now : Nat)
    (hn : now + timebase / 128 < 2 ^ 64) (hr : now + timebase / 256 < 2 ^ 64) :
    (50 < priority → Sched.schedule_stimecmp priority timebase now = now + timebase / 256) ∧
    (priority ≤ 50 → Sched.schedule_stimecmp priority timebase now = now + timebase / 128) := by
  unfold Sched.schedule_stimecmp Sched.stimecmp_write_delta Sched.is_realtime_task
  unfold Sched.get_time_slice_realtime Sched.get_time_slice_normal
  unfold Sched.TIME_SLICE_OF_REALTIME Sched.TIME_SLICE_OF_NORMAL
  constructor
  · intro hp
    rw [if_pos (by simpa using hp), Nat.mod_eq_of_lt hr]
  · intro hp
    rw [if_neg (by simpa using Int.not_lt.mpr hp), Nat.mod_eq_of_lt hn]

/-- Claim C7 witness: a realtime task (priority 55) and a normal task
(priority 0) on a 10 MHz timebase at time 1000. -/
theorem C7_witness :
    Sched.schedule_stimecmp 55 10000000 1000 = 1000 + 10000000 / 256 ∧
    Sched.schedule_stimecmp 0 10000000 1000 = 1000 + 10000000 / 128 :=
  ⟨(C7_time_slice 55 10000000 1000 (by decide) (by decide)).1 (by decide),
   (C7_time_slice 0 10000000 1000 (by decide) (by decide)).2 (by decide)⟩

/-- Claim C3: the code panics on a properly aligned block that lies entirely
inside the zone: with `page_idx = 600`, `order = 1`, `max_pages = 1024` the
block `[600, 602)` is aligned and in range, yet the check of
`free_pages_bulk` fires because Rust parses `page_idx + 1usize << order` as
`(page_idx + 1) << order = 1202 > 1024`. -/
theorem C3_free_check_bug :
    Buddy.free_check_panics 600 1 1024 = true ∧ 600 % 2 ^ 1 = 0 ∧ 600 + 2 ^ 1 ≤ 1024 := by
  decide

/-- Claim C4: `alloc_slab` on a cache with padded size 64 and 64 objects per
slab (one 4096-byte page, base 4096) installs the freelist head at the slab
base, threads object `i` to object `i+1` for all 64 objects, stores
`base + 64*64 = 8192` (not 0) in the last object at `4096 + 63*64`, and
writes its 0 terminator out of bounds at 8192 = one object past the slab. -/
theorem C4_freelist_threading_bug :
    Slub.get_free_list (Slub.alloc_slab_counters 4096 64) = 4096 ∧
    (∀ i < 63, Slub.alloc_slab_mem 4096 64 64 (fun _ => 0) (4096 + i * 64) =
      4096 + (i + 1) * 64) ∧
    Slub.alloc_slab_mem 4096 64 64 (fun _ => 0) (4096 + 63 * 64) = 8192 ∧
    Slub.alloc_slab_mem 4096 64 64 (fun _ => 0) (4096 + 63 * 64) ≠ 0 ∧
    Slub.alloc_slab_mem 4096 64 64 (fun _ => 0) 8192 = 0 := by
  decide

set_option maxRecDepth 2000 in
/-- Claim C6: with `max_alloc_pages = 1024` and the bitmaps starting at the
8-byte-aligned address `0x8000_0000`, `init` reserves
`page_start - bitmap_start = 0` bytes for the per-order bitmaps although the
bitmap base pointers consume 129 bytes, because Rust parses
`max_alloc_pages >> (i + 1usize) + 7` as `max_alloc_pages >> (i + 8)`: the
Page descriptor array overlaps the order-0 bitmap. -/
theorem C6_bitmap_reserve_bug :
    Buddy.init_page_start 0x80000000 1024 - 0x80000000 = 0 ∧
    Buddy.init_bitmap_needed 1024 = 129 ∧
    Buddy.init_page_start 0x80000000 1024 - 0x80000000 <
      Buddy.init_bitmap_needed 1024 := by
  decide

/-! ## src/mm/kmem/mod.rs — the AllocList bump heap behind kmalloc

The heap is a contiguous region of `KMEM_ALLOC` pages carved into chunks;
each chunk starts with an 8-byte `AllocList` header whose single
`flags_size` word packs the Taken flag (bit 63) with the chunk byte size
(which always includes the header).  We model the heap as the list of the
chunk header words in address order, together with the base address of the
region (`KMEM_HEAD`); the loop of `kmalloc` walks the chunks by advancing
the running byte offset by each chunk size, exactly as the pointer walk in
the source does (chunk sizes in reachable states are positive, so the walk
terminates at the region end). -/

namespace Kmem

/-- AllocListFlags::Taken = 1 << 63 (kmem/mod.rs line 953). -/
def TAKEN : Nat := 1 <<< 63

/-- AllocList::get_size: `flags_size & !Taken`. -/
def get_size (w : Nat) : Nat := w &&& ((2 ^ 64 - 1) - TAKEN)

/-- AllocList::is_taken: `flags_size & Taken != 0`. -/
def is_taken (w : Nat) : Bool := w &&& TAKEN ≠ 0

/-- AllocList::is_free: `!is_taken`. -/
def is_free (w : Nat) : Bool := !is_taken w

/-- AllocList::set_taken: `flags_size |= Taken`. -/
def set_taken (w : Nat) : Nat := w ||| TAKEN

/-- AllocList::set_size: keep the flag bit, store `s & !Taken`
(kmem/mod.rs lines 989-992). -/
def set_size (w s : Nat) : Nat := (w &&& TAKEN) ||| (s &&& ((2 ^ 64 - 1) - TAKEN))

/-- The chunk list after `kmem_init` (kmem/mod.rs lines 1015-1028): one free
chunk covering all `512 * PAGE_SIZE` bytes.  `set_free` on the zeroed header
then `set_size(512 * 4096)` yields the bare size word. -/
def init_chunks : List Nat := [set_size 0 (512 * 4096)]

/-- The page count `KMEM_ALLOC` after `kmem_init`. -/
def KMEM_ALLOC : Nat := 512

/-- The chunk-walking loop of `kmalloc` (kmem/mod.rs lines 1045-1067).
`off` is the byte offset of the current header from `KMEM_HEAD`; on a hit
the returned pointer is `head.add(1)`, i.e. `base + off + 8`, and the chunk
list is updated as the header writes do (in the split case the fresh header
is built by `set_free`/`set_size` on whatever the interior held, which the
flag-masking of `set_size` makes independent of the old contents). -/
def kmalloc_loop (base size : Nat) : List Nat → Nat → Option Nat × List Nat
  | [], _ => (none, [])
  | w :: rest, off =>
      let chunk_size := get_size w
      if is_free w ∧ size ≤ chunk_size then
        let rem := chunk_size - size
        if rem > 8 then
          (some (base + off + 8), set_size (set_taken w) size :: set_size 0 rem :: rest)
        else
          (some (base + off + 8), set_size (set_taken w) chunk_size :: rest)
      else
        let r := kmalloc_loop base size rest (off + chunk_size)
        (r.fst, w :: r.snd)

/-- Top-level `kmalloc(sz, flags)` (the `flags` argument is unused in the
source).  Zero-size requests return null immediately; otherwise the
requested size is rounded up with `align_up(sz, 3)` plus the 8-byte header
and the chunk walk runs from the heap head. -/
def kmalloc (chunks : List Nat) (base sz : Nat) : Option Nat × List Nat :=
  if sz = 0 then (none, chunks)
  else kmalloc_loop base (Buddy.align_up sz 3 + 8) chunks 0

theorem kmalloc_loop_aligned (base size : Nat) (chunks : List Nat) :
    ∀ (off : Nat), (∀ w ∈ chunks, get_size w % 8 = 0) → (base + off) % 8 = 0 →
      ∀ p, (kmalloc_loop base size chunks off).fst = some p →
        p % 8 = 0 ∧ (p - 8) % 8 = 0 ∧ 8 ≤ p := by
  induction chunks with
  | nil => intro off _ _ p hp; simp [kmalloc_loop] at hp
  | cons w rest ih =>
      intro off hch hoff p hp
      unfold kmalloc_loop at hp
      by_cases hfound : is_free w = true ∧ size ≤ get_size w
      · rw [if_pos hfound] at hp
        have hpv : p = base + off + 8 := by
          by_cases hrem : get_size w - size > 8
          · rw [if_pos hrem] at hp
            exact (Option.some_inj.mp hp.symm)
          · rw [if_neg hrem] at hp
            exact (Option.some_inj.mp hp.symm)
        subst hpv
        omega
      · rw [if_neg (by simpa using hfound)] at hp
        simp only at hp
        refine ih (off + get_size w) (fun v hv => hch v (List.mem_cons_of_mem w hv)) ?_ p hp
        have := hch w (List.mem_cons_self w rest)
        omega

end Kmem

/-- Claim C10 counterexample: from a fresh `kmem_init` heap based at the
16-byte-aligned address 0x200000, `kmalloc(9)` then `kmalloc(8)` returns the
pointer 0x200020 whose AllocList header sits at 0x200018, which is 8-byte
but not 16-byte aligned. -/
theorem C10_counterexample :
    (Kmem.kmalloc (Kmem.kmalloc Kmem.init_chunks 0x200000 9).snd 0x200000 8).fst =
      some 0x200020 ∧ ¬((0x200020 - 8) % 16 = 0) := by
  decide

/-- Claim C10 (amended): `kmalloc(0, flags)` returns the null pointer for
every flags value and every heap state, and on any heap whose base and chunk
sizes are multiples of 8 (as established by `kmem_init` and preserved by the
allocator, which only creates chunk sizes `align_up(sz,3) + 8`), every
non-null pointer returned by `kmalloc(sz, flags)` with `sz > 0` is aligned
to 8 bytes and its payload starts immediately after an 8-byte-aligned
AllocList header. -/
theorem C10_kmalloc_contract (chunks : List Nat) (base sz : Nat)
    (hb : base % 8 = 0) (hch : ∀ w ∈ chunks, Kmem.get_size w % 8 = 0) :
    (Kmem.kmalloc chunks base 0).fst = none ∧
    (∀ p, (Kmem.kmalloc chunks base sz).fst = some p →
      p % 8 = 0 ∧ (p - 8) % 8 = 0 ∧ 8 ≤ p) := by
  constructor
  · simp [Kmem.kmalloc]
  · intro p hp
    unfold Kmem.kmalloc at hp
    by_cases hsz : sz = 0
    · rw [if_pos hsz] at hp
      simp at hp
    · rw [if_neg hsz] at hp
      exact Kmem.kmalloc_loop_aligned base (Buddy.align_up sz 3 + 8) chunks 0 hch
        (by omega) p hp

/-- Claim C10 witness: on the fresh `kmem_init` heap at base 0x200000 the
first `kmalloc(9)` returns 0x200008, and the contract holds there. -/
theorem C10_witness :
    0x200008 % 8 = 0 ∧ (0x200008 - 8) % 8 = 0 ∧ 8 ≤ 0x200008 :=
  (C10_kmalloc_contract Kmem.init_chunks 0x200000 9 (by decide)
    (by decide)).2 0x200008 (by decide)

/-! ## src/mm/page.rs — the address layer of the buddy allocator

`free_pages(addr, order)` (page.rs lines 448-456) translates the address
back to a `Page` descriptor with `address_to_page` and asserts that the
result is non-null before calling `do_free_pages`.  The address arithmetic
of that translation is pure and is transcribed here; `ALLOC_START` is the
physical address of the zone's first allocatable page (its concrete value
is irrelevant as long as it is page aligned). -/

namespace Buddy

/-- The physical address of the first allocatable page. -/
def ALLOC_START : Nat := 0x80800000

/-- page.rs `page_to_address`: `ALLOC_START + index * PAGE_SIZE` (for a
non-null descriptor). -/
def page_to_address (i : Nat) : Nat := ALLOC_START + i * 4096

/-- page.rs `address_to_page` (lines 478-489): page-alignment debug assert,
then `if addr <= ALLOC_START { null } else { (addr - ALLOC_START) /
PAGE_SIZE }`.  Note `<=`: the address of the very first page maps to the
null descriptor. -/
def address_to_page (addr : Nat) : Option Nat :=
  if addr % 4096 ≠ 0 then none
  else if addr ≤ ALLOC_START then none
  else some ((addr - ALLOC_START) / 4096)

end Buddy

/-- Claim C2 (code bug).  The S1 sequence never reaches the claimed final
state: the first order-0 allocation on a fresh zone returns page index 0,
whose address is `ALLOC_START` itself, and `address_to_page` maps that
address to the null descriptor (the `addr <= ALLOC_START` test at page.rs
line 482 excludes the first page), so the non-null assertion in
`do_free_pages` (page.rs line 561) fires on `free_pages(a, 0)` — the very
first free of S1 panics instead of merging. -/
theorem C2_first_free_asserts :
    Buddy.page_to_address 0 = Buddy.ALLOC_START ∧
    (Buddy.address_to_page (Buddy.page_to_address 0)).isNone = true := by
  decide

/-! ## src/mm/mmu.rs — the Sv39/Sv48/Sv57 page-table engine

Physical memory is a map from byte addresses to the 64-bit words stored
there (only 8-byte-aligned PTE slots are ever read or written).  Page-table
pages come from the mmu allocator (`alloc_zeroed_page`), modelled as a bump
cursor handing out fresh page-aligned zeroed pages — both the early bump
allocator and a buddy allocator with free memory behave this way for the
fresh-root scenarios of the claim; out-of-memory is not modelled. -/

namespace Mmu

/-- Memory plus the page-table page allocator cursor. -/
structure MmuState where
  mem : Nat → Nat
  nextFree : Nat

/-- Store the 64-bit word `v` at address `a`. -/
def writeMem (s : MmuState) (a v : Nat) : MmuState :=
  { s with mem := fun x => if x = a then v else s.mem x }

/-- The allocator call `allocator::alloc_zeroed_page()`: hand out the next
page-aligned page and zero its 4096 bytes. -/
def alloc_zeroed_page (s : MmuState) : Nat × MmuState :=
  (s.nextFree,
   { mem := fun a => if s.nextFree ≤ a ∧ a < s.nextFree + 4096 then 0 else s.mem a,
     nextFree := s.nextFree + 4096 })

/-- PTE_PPN_MASK = `!0x3ff` on u64 (mmu.rs line 398). -/
def PTE_PPN_MASK : Nat := 2 ^ 64 - 0x400

/-- Entry::is_valid: the V bit. -/
def entry_is_valid (e : Nat) : Bool := e &&& 1 ≠ 0

/-- Entry::is_leaf: any of the R/W/X bits. -/
def entry_is_leaf (e : Nat) : Bool := e &&& 0xe ≠ 0

/-- Entry::is_access_set: the A bit. -/
def entry_is_access_set (e : Nat) : Bool := e &&& 0x40 ≠ 0

/-- The next-level table address `((v.get_entry() & PTE_PPN_MASK) << 2)`
cast to usize. -/
def branch_target (e : Nat) : Nat := ((e &&& PTE_PPN_MASK) <<< 2) % 2 ^ 64

/-- The 9-bit VPN piece of level `i`: `(v_addr >> (i*9 + PAGE_ORDER)) & L_MASK`. -/
def vpn (va i : Nat) : Nat := (va >>> (i * 9 + 12)) &&& 0x1ff

/-- is_bits_valid (mmu.rs line 129): reject W=1,R=0. -/
def is_bits_valid (bits : Nat) : Bool := bits &&& 0b0110 ≠ 0b0100

/-- is_bits_valid_leaf (mmu.rs line 137): valid and at least one RWX bit. -/
def is_bits_valid_leaf (bits : Nat) : Bool := is_bits_valid bits && (bits &&& 0b1110 ≠ 0)

/-- The table-descent loop of `do_map` (mmu.rs lines 431-446): `count` is
the number of remaining iterations (from `LEVELS-1-level` down), the
current loop index being `i = level + count - 1`; `ventry` is the address of
the PTE slot the loop variable `v` points at.  An invalid entry is fixed by
allocating a zeroed child page and installing `(page >> 2) | V`; the
`debug_assert!(v.is_branch())` is the `none` case; then `v` advances into
the child table at that level's VPN index. -/
def walk_entries (va level : Nat) : Nat → Nat → MmuState → Option (Nat × MmuState)
  | 0, ventry, s => some (ventry, s)
  | Nat.succ c, ventry, s =>
      let i := level + c
      let s1 :=
        if entry_is_valid (s.mem ventry) then s
        else
          let pg := alloc_zeroed_page s
          writeMem pg.2 ventry ((pg.1 >>> 2) ||| 1)
      let e := s1.mem ventry
      if entry_is_leaf e then none
      else walk_entries va level c (branch_target e + vpn va i * 8) s1

/-- The array slot `ppn[i]` as assigned by `do_map` (mmu.rs lines 417-445):
the top slot is masked with `(1 << (44 - (LEVELS-1)*9)) - 1`, the slots from
`level` to `LEVELS-2` with `L_MASK`, lower slots stay zero. -/
def ppn_piece (LEVELS level pa i : Nat) : Nat :=
  if i = LEVELS - 1 then (pa >>> ((LEVELS - 1) * 9 + 12)) &&& ((1 <<< (44 - (LEVELS - 1) * 9)) - 1)
  else if level ≤ i then (pa >>> (i * 9 + 12)) &&& 0x1ff
  else 0

/-- The leaf PTE composed at the end of `do_map` (mmu.rs lines 449-453):
`(bits & PTE_FLAG_MASK) | V` ored with every `ppn[i] << (i*9 + 10)`. -/
def leaf_entry (LEVELS level pa bits : Nat) : Nat :=
  (List.range LEVELS).foldl
    (fun e i => e ||| (ppn_piece LEVELS level pa i <<< (i * 9 + 10)))
    ((bits &&& 0x3ff) ||| 1)

/-- `do_map` (mmu.rs lines 403-454): the three debug asserts and the
`is_bits_valid_leaf` assert as guards, then the top-VPN slot, the descent
loop, and the final leaf store. -/
def do_map (LEVELS root va pa bits level : Nat) (s : MmuState) : Option MmuState :=
  if LEVELS ≤ level then none
  else if va &&& ((1 <<< (level * 9 + 12)) - 1) ≠ 0 then none
  else if pa &&& ((1 <<< (level * 9 + 12)) - 1) ≠ 0 then none
  else if ¬ is_bits_valid_leaf bits then none
  else
    match walk_entries va level (LEVELS - 1 - level) (root + vpn va (LEVELS - 1) * 8) s with
    | none => none
    | some (slot, s1) => some (writeMem s1 slot (leaf_entry LEVELS level pa bits))

/-- The translation loop of `do_virt2phys` (mmu.rs lines 488-520) with the
level index carried as fuel (`Nat.succ i` processes level `i`): invalid
entry or fallthrough is `None`; on a leaf, a clear Access bit is `None`
(swap stub), otherwise the physical address combines the entry's PPN prefix
above the level's page-size boundary with the in-page offset of `v_addr`. -/
def v2p_go (s : MmuState) (va : Nat) : Nat → Nat → Option Nat
  | 0, _ => none
  | Nat.succ i, base =>
      let shift := i * 9 + 12
      let e := s.mem (base + ((va >>> shift) &&& 0x1ff) * 8)
      if ¬ entry_is_valid e then none
      else if entry_is_leaf e then
        if ¬ entry_is_access_set e then none
        else
          let mask := (1 <<< shift) - 1
          let va_offset := va &&& mask
          let pn := ((e <<< 2) % 2 ^ 64) &&& (2 ^ 64 - (1 <<< shift))
          some (pn ||| va_offset)
      else v2p_go s va i (branch_target e)

/-- `do_virt2phys` starts the walk at the root with the top level. -/
def do_virt2phys (LEVELS root va : Nat) (s : MmuState) : Option Nat :=
  v2p_go s va LEVELS root

/-- A fresh root table: create_root_table hands back a zeroed page; the
state in which everything (including the root page) reads zero, with the
allocator cursor at `f`. -/
def fresh_state (f : Nat) : MmuState := { mem := fun _ => 0, nextFree := f }

end Mmu

/-- Conjunction with a mask below `2^k` only sees the low `k` bits. -/
theorem and_lt_two_pow_eq_mod_and {x y k : Nat} (hy : y < 2 ^ k) :
    x &&& y = (x % 2 ^ k) &&& y := by
  apply Nat.eq_of_testBit_eq
  intro i
  rw [Nat.testBit_and, Nat.testBit_and, Nat.testBit_mod_two_pow]
  rcases Nat.lt_or_ge i k with hi | hi
  · simp [hi]
  · have : y < 2 ^ i := lt_of_lt_of_le hy (Nat.pow_le_pow_right (by omega) hi)
    simp [Nat.testBit_lt_two_pow this, Nat.not_lt_of_le hi]

namespace Mmu

theorem branch_entry_eq {p : Nat} (hp : p % 4096 = 0) : (p >>> 2) ||| 1 = p / 4 + 1 := by
  rw [Nat.shiftRight_eq_div_pow]
  norm_num
  exact or_eq_add_of_lt (i := 10) (by omega) (by omega)

theorem branch_entry_valid {p : Nat} : entry_is_valid ((p >>> 2) ||| 1) = true := by
  simp [entry_is_valid, Nat.and_one_is_mod]

theorem branch_entry_not_leaf {p : Nat} (hp : p % 4096 = 0) :
    entry_is_leaf ((p >>> 2) ||| 1) = false := by
  rw [branch_entry_eq hp]
  have h16 : (p / 4 + 1) % 2 ^ 4 = 1 := by omega
  simp only [entry_is_leaf]
  rw [and_lt_two_pow_eq_mod_and (k := 4) (by norm_num), h16]
  decide

theorem branch_roundtrip {p : Nat} (hp : p % 4096 = 0) (hb : p < 2 ^ 62) :
    branch_target ((p >>> 2) ||| 1) = p := by
  rw [branch_entry_eq hp]
  unfold branch_target PTE_PPN_MASK
  have hmask : (2 : Nat) ^ 64 - 0x400 = 2 ^ 64 - 2 ^ 10 := by norm_num
  rw [hmask, and_high_mask (by omega) (by omega)]
  rw [Nat.shiftLeft_eq]
  have : (p / 4 + 1) / 2 ^ 10 * 2 ^ 10 * 2 ^ 2 = p := by omega
  rw [this, Nat.mod_eq_of_lt (by omega)]

theorem vpn_le (va i : Nat) : vpn va i ≤ 511 := Nat.and_le_right

theorem walk_then_v2p (va va' level L : Nat)
    (hvpn : ∀ i, level ≤ i → vpn va' i = vpn va i)
    (hL1 : entry_is_valid L = true) (hLleaf : entry_is_leaf L = true) :
    ∀ (c tbl f : Nat) (s : MmuState),
      f % 4096 = 0 →
      tbl + 4096 ≤ f →
      f + 4096 * c < 2 ^ 62 →
      (∀ a, tbl ≤ a → s.mem a = 0) →
      s.nextFree = f →
      ∃ slot s1,
        walk_entries va level c (tbl + vpn va (level + c) * 8) s = some (slot, s1) ∧
        tbl ≤ slot ∧
        (∀ a, a < tbl → s1.mem a = s.mem a) ∧
        v2p_go (writeMem s1 slot L) va' (level + c + 1) tbl =
          (if ¬ entry_is_access_set L then none
           else some ((((L <<< 2) % 2 ^ 64) &&& (2 ^ 64 - (1 <<< (level * 9 + 12)))) |||
             (va' &&& ((1 <<< (level * 9 + 12)) - 1)))) := by
  intro c
  induction c with
  | zero =>
      intro tbl f s hf htbl hb hz hnf
      refine ⟨tbl + vpn va level * 8, s, by simp [walk_entries], by omega, fun a _ => rfl, ?_⟩
      show v2p_go (writeMem s (tbl + vpn va level * 8) L) va' (level + 1) tbl = _
      have haddr : (va' >>> (level * 9 + 12)) &&& 0x1ff = vpn va level := hvpn level (le_refl level)
      simp only [v2p_go, haddr]
      rw [show (writeMem s (tbl + vpn va level * 8) L).mem (tbl + vpn va level * 8) = L from
        if_pos rfl]
      rw [hL1, hLleaf]
      simp
  | succ c ih =>
      intro tbl f s hf htbl hb hz hnf
      have hvb : vpn va (level + (c + 1)) ≤ 511 := vpn_le va _
      have hslot0 : tbl + vpn va (level + (c + 1)) * 8 < f := by omega
      have hz0 : s.mem (tbl + vpn va (level + (c + 1)) * 8) = 0 := hz _ (by omega)
      have hfb : f < 2 ^ 62 := by omega
      set slot0 := tbl + vpn va (level + (c + 1)) * 8 with hslot0def
      have hvalid0 : entry_is_valid (s.mem slot0) = false := by
        rw [hz0]; decide
      have hpg1 : (alloc_zeroed_page s).1 = f := hnf
      set s1 := writeMem (alloc_zeroed_page s).2 slot0 (((alloc_zeroed_page s).1 >>> 2) ||| 1)
        with hs1def
      have hs1mem : s1.mem slot0 = (f >>> 2) ||| 1 := by
        rw [hs1def, hpg1]
        exact if_pos rfl
      have hs1nf : s1.nextFree = f + 4096 := by
        rw [hs1def]
        show s.nextFree + 4096 = f + 4096
        rw [hnf]
      have hs1z : ∀ a, f ≤ a → s1.mem a = 0 := by
        intro a ha
        rw [hs1def]
        show (if a = slot0 then _ else (alloc_zeroed_page s).2.mem a) = 0
        rw [if_neg (by omega)]
        show (if s.nextFree ≤ a ∧ a < s.nextFree + 4096 then 0 else s.mem a) = 0
        by_cases hin : s.nextFree ≤ a ∧ a < s.nextFree + 4096
        · rw [if_pos hin]
        · rw [if_neg hin]
          exact hz a (by omega)
      have hs1lo : ∀ a, a < f → a ≠ slot0 → s1.mem a = s.mem a := by
        intro a ha hne
        rw [hs1def]
        show (if a = slot0 then _ else (alloc_zeroed_page s).2.mem a) = s.mem a
        rw [if_neg hne]
        show (if s.nextFree ≤ a ∧ a < s.nextFree + 4096 then 0 else s.mem a) = s.mem a
        rw [if_neg (by omega)]
      obtain ⟨slot, s2, hwalk, hsl, hframe, hv2p⟩ :=
        ih f (f + 4096) s1 (by omega) (by omega) (by omega) hs1z hs1nf
      have hbranch : entry_is_leaf (s1.mem slot0) = false := by
        rw [hs1mem]
        exact branch_entry_not_leaf hf
      have htarget : branch_target (s1.mem slot0) = f := by
        rw [hs1mem]
        exact branch_roundtrip hf hfb
      refine ⟨slot, s2, ?_, by omega, ?_, ?_⟩
      · show walk_entries va level (c + 1) slot0 s = some (slot, s2)
        rw [walk_entries]
        simp only [hvalid0, Bool.false_eq_true, if_false, ← hs1def, hbranch, htarget]
        exact hwalk
      · intro a ha
        rw [hframe a (by omega), hs1lo a (by omega) (by omega)]
      · show v2p_go (writeMem s2 slot L) va' (level + (c + 1) + 1) tbl = _
        rw [show level + (c + 1) + 1 = Nat.succ (level + c + 1) from rfl]
        rw [v2p_go]
        have haddr : (va' >>> ((level + c + 1) * 9 + 12)) &&& 0x1ff = vpn va (level + (c + 1)) :=
          hvpn (level + c + 1) (by omega)
        simp only [haddr]
        have hread : (writeMem s2 slot L).mem (tbl + vpn va (level + (c + 1)) * 8) =
            (f >>> 2) ||| 1 := by
          show (if slot0 = slot then L else s2.mem slot0) = _
          rw [if_neg (by omega), hframe slot0 (by omega), hs1mem]
        rw [hread, branch_entry_valid, branch_entry_not_leaf hf]
        simp only [Bool.false_eq_true, if_false, Bool.not_false, if_true]
        rw [branch_roundtrip hf hfb]
        exact hv2p

end Mmu

namespace Mmu

theorem or_add_piece {S T k : Nat} (hS : S < 2 ^ k) (hT : T % 2 ^ k = 0) : S ||| T = S + T := by
  rw [Nat.or_comm, or_eq_add_of_lt hT hS, Nat.add_comm]

theorem and_0x1ff (x : Nat) : x &&& 0x1ff = x % 2 ^ 9 := by
  have h : (0x1ff : Nat) = 2 ^ 9 - 1 := by norm_num
  rw [h, Nat.and_pow_two_sub_one_eq_mod]

theorem leaf_below (LEVELS level pa bits acc : Nat) (hlev : level < LEVELS) :
    ∀ j, j ≤ level →
      (List.range j).foldl
        (fun e i => e ||| (ppn_piece LEVELS level pa i <<< (i * 9 + 10))) acc = acc := by
  intro j
  induction j with
  | zero => intro _; rfl
  | succ n ih =>
      intro hj
      rw [List.range_succ, List.foldl_append, ih (by omega)]
      simp only [List.foldl_cons, List.foldl_nil]
      have hpiece : ppn_piece LEVELS level pa n = 0 := by
        unfold ppn_piece
        rw [if_neg (by omega), if_neg (by omega)]
      rw [hpiece, Nat.zero_shiftLeft, Nat.or_zero]

theorem pow_mul_lt_aux {acc X Y D : Nat} (haccY : acc < Y) (hX : X < D) :
    acc + X * Y < D * Y := by
  have h1 : acc + X * Y < Y + X * Y := Nat.add_lt_add_right haccY _
  have h2 : Y + X * Y = (X + 1) * Y := by ring
  have h3 : (X + 1) * Y ≤ D * Y := Nat.mul_le_mul_right Y (by omega)
  omega

theorem two_pow_split (a b c : Nat) (h : a = b + c) : (2 : Nat) ^ a = 2 ^ b * 2 ^ c := by
  rw [h, pow_add]

theorem leaf_middle (LEVELS level m acc : Nat) (hacc : acc < 2 ^ 10)
    (hlev : level < LEVELS) :
    ∀ d, level + d ≤ LEVELS - 1 →
      (List.range (level + d)).foldl
        (fun e i =>
          e ||| (ppn_piece LEVELS level (m * 2 ^ (level * 9 + 12)) i <<< (i * 9 + 10))) acc
        = acc + (m % 2 ^ (9 * d)) * 2 ^ (level * 9 + 10) := by
  intro d
  induction d with
  | zero =>
      intro _
      simp only [Nat.add_zero]
      rw [leaf_below LEVELS level (m * 2 ^ (level * 9 + 12)) 0 acc hlev level (le_refl level)]
      norm_num [Nat.mod_one]
  | succ n ih =>
      intro hd
      rw [show level + (n + 1) = (level + n) + 1 from rfl]
      rw [List.range_succ, List.foldl_append, ih (by omega)]
      simp only [List.foldl_cons, List.foldl_nil]
      have hmid : ppn_piece LEVELS level (m * 2 ^ (level * 9 + 12)) (level + n) =
          (m / 2 ^ (9 * n)) % 2 ^ 9 := by
        unfold ppn_piece
        rw [if_neg (by omega), if_pos (by omega)]
        rw [Nat.shiftRight_eq_div_pow, and_0x1ff]
        have hdiv : m * 2 ^ (level * 9 + 12) / 2 ^ ((level + n) * 9 + 12) =
            m / 2 ^ (9 * n) := by
          rw [two_pow_split ((level + n) * 9 + 12) (level * 9 + 12) (9 * n) (by ring)]
          rw [Nat.mul_comm m, Nat.mul_div_mul_left _ _ (Nat.two_pow_pos _)]
        rw [hdiv]
      rw [hmid]
      have hshift : ((m / 2 ^ (9 * n)) % 2 ^ 9) <<< ((level + n) * 9 + 10) =
          ((m / 2 ^ (9 * n)) % 2 ^ 9) * (2 ^ (9 * n) * 2 ^ (level * 9 + 10)) := by
        rw [Nat.shiftLeft_eq, two_pow_split ((level + n) * 9 + 10) (9 * n) (level * 9 + 10)
          (by ring)]
      rw [hshift]
      have hS : acc + (m % 2 ^ (9 * n)) * 2 ^ (level * 9 + 10) < 2 ^ ((level + n) * 9 + 10) := by
        rw [two_pow_split ((level + n) * 9 + 10) (9 * n) (level * 9 + 10) (by ring)]
        exact pow_mul_lt_aux
          (lt_of_lt_of_le hacc (Nat.pow_le_pow_right (by omega) (by omega)))
          (Nat.mod_lt _ (Nat.two_pow_pos _))
      have hT : ((m / 2 ^ (9 * n)) % 2 ^ 9) * (2 ^ (9 * n) * 2 ^ (level * 9 + 10)) %
          2 ^ ((level + n) * 9 + 10) = 0 := by
        rw [two_pow_split ((level + n) * 9 + 10) (9 * n) (level * 9 + 10) (by ring)]
        exact Nat.mul_mod_left _ _
      rw [or_add_piece hS hT]
      have hmod : m % 2 ^ (9 * (n + 1)) =
          m % 2 ^ (9 * n) + 2 ^ (9 * n) * (m / 2 ^ (9 * n) % 2 ^ 9) := by
        rw [two_pow_split (9 * (n + 1)) (9 * n) 9 (by ring), Nat.mod_mul]
      rw [hmod]
      ring

end Mmu

namespace Mmu

theorem leaf_entry_eq (LEVELS level m bits : Nat) (hlev : level < LEVELS)
    (h36 : (LEVELS - 1) * 9 ≤ 36) (hm : m < 2 ^ (44 - 9 * level)) :
    leaf_entry LEVELS level (m * 2 ^ (level * 9 + 12)) bits
      = ((bits &&& 0x3ff) ||| 1) + m * 2 ^ (level * 9 + 10) := by
  have hacc : ((bits &&& 0x3ff) ||| 1) < 2 ^ 10 := by
    apply Nat.or_lt_two_pow
    · exact lt_of_le_of_lt Nat.and_le_right (by norm_num)
    · norm_num
  unfold leaf_entry
  have hL1 : LEVELS = (level + (LEVELS - 1 - level)) + 1 := by omega
  set dt := LEVELS - 1 - level with hdtdef
  rw [hL1, List.range_succ, List.foldl_append]
  rw [leaf_middle (level + dt + 1) level m _ hacc (by omega) dt (by omega)]
  simp only [List.foldl_cons, List.foldl_nil]
  have htop : ppn_piece (level + dt + 1) level (m * 2 ^ (level * 9 + 12)) (level + dt) =
      m / 2 ^ (9 * dt) := by
    unfold ppn_piece
    rw [if_pos (by omega)]
    have hidx : level + dt + 1 - 1 = level + dt := by omega
    rw [hidx]
    rw [Nat.shiftRight_eq_div_pow]
    have hdiv : m * 2 ^ (level * 9 + 12) / 2 ^ ((level + dt) * 9 + 12) =
        m / 2 ^ (9 * dt) := by
      rw [two_pow_split ((level + dt) * 9 + 12) (level * 9 + 12) (9 * dt) (by ring)]
      rw [Nat.mul_comm m, Nat.mul_div_mul_left _ _ (Nat.two_pow_pos _)]
    rw [hdiv]
    have hmask : (1 : Nat) <<< (44 - (level + dt) * 9) - 1 = 2 ^ (44 - (level + dt) * 9) - 1 := by
      rw [Nat.shiftLeft_eq, Nat.one_mul]
    rw [hmask, Nat.and_pow_two_sub_one_eq_mod]
    apply Nat.mod_eq_of_lt
    rw [Nat.div_lt_iff_lt_mul (Nat.two_pow_pos _)]
    calc m < 2 ^ (44 - 9 * level) := hm
    _ = 2 ^ (44 - (level + dt) * 9) * 2 ^ (9 * dt) := by
        rw [← pow_add]
        congr 1
        omega
  rw [htop]
  have hshift : (m / 2 ^ (9 * dt)) <<< ((level + dt) * 9 + 10) =
      (m / 2 ^ (9 * dt)) * (2 ^ (9 * dt) * 2 ^ (level * 9 + 10)) := by
    rw [Nat.shiftLeft_eq, two_pow_split ((level + dt) * 9 + 10) (9 * dt) (level * 9 + 10)
      (by ring)]
  rw [hshift]
  have hS : ((bits &&& 0x3ff) ||| 1) + (m % 2 ^ (9 * dt)) * 2 ^ (level * 9 + 10) <
      2 ^ ((level + dt) * 9 + 10) := by
    rw [two_pow_split ((level + dt) * 9 + 10) (9 * dt) (level * 9 + 10) (by ring)]
    exact pow_mul_lt_aux
      (lt_of_lt_of_le hacc (Nat.pow_le_pow_right (by omega) (by omega)))
      (Nat.mod_lt _ (Nat.two_pow_pos _))
  have hT : (m / 2 ^ (9 * dt)) * (2 ^ (9 * dt) * 2 ^ (level * 9 + 10)) %
      2 ^ ((level + dt) * 9 + 10) = 0 := by
    rw [two_pow_split ((level + dt) * 9 + 10) (9 * dt) (level * 9 + 10) (by ring)]
    exact Nat.mul_mod_left _ _
  rw [or_add_piece hS hT]
  have hqr : 2 ^ (9 * dt) * (m / 2 ^ (9 * dt)) + m % 2 ^ (9 * dt) = m :=
    Nat.div_add_mod m (2 ^ (9 * dt))
  generalize hq : m / 2 ^ (9 * dt) = q at hqr ⊢
  generalize hr : m % 2 ^ (9 * dt) = r at hqr ⊢
  rw [← hqr]
  ring

theorem acc_and (bits c : Nat) (hc1 : 1 &&& c = 0) (hcm : 0x3ff &&& c = c) :
    ((bits &&& 0x3ff) ||| 1) &&& c = bits &&& c := by
  rw [Nat.and_comm _ c, Nat.and_or_distrib_left, Nat.and_comm c _, Nat.and_comm c 1, hc1,
    Nat.or_zero, Nat.and_assoc, hcm]

theorem leaf_low_and (bits c k low t : Nat) (hc : c < 2 ^ k) (hk : k ≤ low) :
    (((bits &&& 0x3ff) ||| 1) + t * 2 ^ low) &&& c = ((bits &&& 0x3ff) ||| 1) &&& c := by
  rw [and_lt_two_pow_eq_mod_and (k := k) hc,
    and_lt_two_pow_eq_mod_and (k := k) hc (x := (bits &&& 0x3ff) ||| 1)]
  have hsplit : t * 2 ^ low = t * 2 ^ (low - k) * 2 ^ k := by
    rw [Nat.mul_assoc, ← pow_add]
    congr 2
    omega
  rw [hsplit, Nat.add_mul_mod_self_right]

theorem vpn_add_eq (va off level : Nat) (hva : va % 2 ^ (level * 9 + 12) = 0)
    (hoff : off < 2 ^ (level * 9 + 12)) :
    ∀ i, level ≤ i → vpn (va + off) i = vpn va i := by
  intro i hi
  unfold vpn
  have hE : (0 : Nat) < 2 ^ (i * 9 + 12) := Nat.two_pow_pos _
  obtain ⟨q, hq⟩ : 2 ^ (level * 9 + 12) ∣ va := Nat.dvd_of_mod_eq_zero hva
  have hsplit : (2 : Nat) ^ (i * 9 + 12) = 2 ^ (level * 9 + 12) * 2 ^ ((i - level) * 9) := by
    rw [← pow_add]
    congr 1
    omega
  have hrem : va % 2 ^ (i * 9 + 12) + off < 2 ^ (i * 9 + 12) := by
    have hmul : va % 2 ^ (i * 9 + 12) =
        2 ^ (level * 9 + 12) * (q % 2 ^ ((i - level) * 9)) := by
      rw [hq, hsplit, Nat.mul_mod_mul_left]
    have hqlt : q % 2 ^ ((i - level) * 9) ≤ 2 ^ ((i - level) * 9) - 1 := by
      have := Nat.mod_lt q (y := 2 ^ ((i - level) * 9)) (Nat.two_pow_pos _)
      omega
    have hle : 2 ^ (level * 9 + 12) * (q % 2 ^ ((i - level) * 9)) ≤
        2 ^ (level * 9 + 12) * (2 ^ ((i - level) * 9) - 1) := Nat.mul_le_mul_left _ hqlt
    have hfin : 2 ^ (level * 9 + 12) * (2 ^ ((i - level) * 9) - 1) + off <
        2 ^ (i * 9 + 12) := by
      rw [hsplit]
      have hpos : (1 : Nat) ≤ 2 ^ ((i - level) * 9) := Nat.one_le_two_pow
      rw [Nat.mul_sub, Nat.mul_one]
      have := Nat.le_mul_of_pos_right (2 ^ (level * 9 + 12)) (Nat.two_pow_pos ((i - level) * 9))
      omega
    omega
  have hdiv : (va + off) / 2 ^ (i * 9 + 12) = va / 2 ^ (i * 9 + 12) := by
    conv_lhs => rw [← Nat.div_add_mod va (2 ^ (i * 9 + 12))]
    rw [Nat.add_assoc, Nat.mul_add_div hE, Nat.div_eq_of_lt hrem, Nat.add_zero]
  rw [Nat.shiftRight_eq_div_pow, Nat.shiftRight_eq_div_pow, hdiv]

end Mmu

/-- Claim C1: page-table round-trip. -/
theorem C1_page_table_roundtrip
    (LEVELS root f0 va pa bits level off : Nat)
    (hmode : LEVELS = 3 ∨ LEVELS = 4 ∨ LEVELS = 5)
    (hlev : level < LEVELS)
    (hva : va % 2 ^ (level * 9 + 12) = 0)
    (hpa : pa % 2 ^ (level * 9 + 12) = 0)
    (hpab : pa < 2 ^ 56)
    (hleafb : bits &&& 0xe ≠ 0)
    (hvalidb : ¬(bits &&& 0x6 = 0x4))
    (haccb : bits &&& 0x40 ≠ 0)
    (hoff : off < 2 ^ (level * 9 + 12))
    (hf : f0 % 4096 = 0)
    (hroot : root + 4096 ≤ f0)
    (hbound : f0 + 4096 * 4 < 2 ^ 62) :
    ∃ s1, Mmu.do_map LEVELS root va pa bits level (Mmu.fresh_state f0) = some s1 ∧
      Mmu.do_virt2phys LEVELS root (va + off) s1 = some (pa + off) := by
  have h36 : (LEVELS - 1) * 9 ≤ 36 := by rcases hmode with h | h | h <;> omega
  have hl9 : level * 9 + 12 ≤ 48 := by rcases hmode with h | h | h <;> omega
  obtain ⟨m, hpam⟩ : ∃ m, pa = m * 2 ^ (level * 9 + 12) :=
    ⟨pa / 2 ^ (level * 9 + 12),
      (Nat.div_mul_cancel (Nat.dvd_of_mod_eq_zero hpa)).symm⟩
  have hmlt : m < 2 ^ (44 - 9 * level) := by
    have hsplit : (2 : Nat) ^ 56 = 2 ^ (44 - 9 * level) * 2 ^ (level * 9 + 12) := by
      rw [← pow_add]
      congr 1
      omega
    by_contra hge
    push_neg at hge
    have : 2 ^ (44 - 9 * level) * 2 ^ (level * 9 + 12) ≤ m * 2 ^ (level * 9 + 12) :=
      Nat.mul_le_mul_right _ hge
    omega
  have hLeq : Mmu.leaf_entry LEVELS level pa bits =
      ((bits &&& 0x3ff) ||| 1) + m * 2 ^ (level * 9 + 10) := by
    rw [hpam]
    exact Mmu.leaf_entry_eq LEVELS level m bits hlev h36 hmlt
  have haccA : ((bits &&& 0x3ff) ||| 1) < 2 ^ 10 := by
    apply Nat.or_lt_two_pow
    · exact lt_of_le_of_lt Nat.and_le_right (by norm_num)
    · norm_num
  have hL1 : Mmu.entry_is_valid (Mmu.leaf_entry LEVELS level pa bits) = true := by
    rw [Mmu.entry_is_valid, hLeq,
      Mmu.leaf_low_and bits 1 1 (level * 9 + 10) m (by norm_num) (by omega)]
    have : ((bits &&& 0x3ff) ||| 1) &&& 1 = 1 := by
      rw [Nat.and_one_is_mod]
      simp [Nat.or_mod_two_eq_one]
    simp [this]
  have hLleaf : Mmu.entry_is_leaf (Mmu.leaf_entry LEVELS level pa bits) = true := by
    rw [Mmu.entry_is_leaf, hLeq,
      Mmu.leaf_low_and bits 0xe 4 (level * 9 + 10) m (by norm_num) (by omega),
      Mmu.acc_and bits 0xe (by decide) (by decide)]
    simp [hleafb]
  have hLacc : Mmu.entry_is_access_set (Mmu.leaf_entry LEVELS level pa bits) = true := by
    rw [Mmu.entry_is_access_set, hLeq,
      Mmu.leaf_low_and bits 0x40 7 (level * 9 + 10) m (by norm_num) (by omega),
      Mmu.acc_and bits 0x40 (by decide) (by decide)]
    simp [haccb]
  have hvpn := Mmu.vpn_add_eq va off level hva hoff
  have hcc : level + (LEVELS - 1 - level) = LEVELS - 1 := by omega
  obtain ⟨slot, s1, hwalk, hslot, hframe, hv2p⟩ :=
    Mmu.walk_then_v2p va (va + off) level (Mmu.leaf_entry LEVELS level pa bits) hvpn hL1 hLleaf
      (LEVELS - 1 - level) root f0 (Mmu.fresh_state f0) hf hroot (by omega)
      (fun a _ => rfl) rfl
  rw [hcc] at hwalk
  refine ⟨Mmu.writeMem s1 slot (Mmu.leaf_entry LEVELS level pa bits), ?_, ?_⟩
  · unfold Mmu.do_map
    have hva' : va &&& ((1 <<< (level * 9 + 12)) - 1) = 0 := by
      rw [Nat.shiftLeft_eq, Nat.one_mul, Nat.and_pow_two_sub_one_eq_mod]
      exact hva
    have hpa' : pa &&& ((1 <<< (level * 9 + 12)) - 1) = 0 := by
      rw [Nat.shiftLeft_eq, Nat.one_mul, Nat.and_pow_two_sub_one_eq_mod]
      exact hpa
    rw [if_neg (by omega), if_neg (by simp [hva']), if_neg (by simp [hpa'])]
    rw [if_neg (by simp [Mmu.is_bits_valid_leaf, Mmu.is_bits_valid, hvalidb, hleafb])]
    rw [hwalk]
  · unfold Mmu.do_virt2phys
    rw [show level + (LEVELS - 1 - level) + 1 = LEVELS from by omega] at hv2p
    rw [hv2p]
    rw [if_neg (by simp [hLacc])]
    congr 1
    have hL4 : Mmu.leaf_entry LEVELS level pa bits <<< 2 =
        ((bits &&& 0x3ff) ||| 1) * 2 ^ 2 + m * 2 ^ (level * 9 + 12) := by
      rw [Nat.shiftLeft_eq, hLeq, Nat.add_mul, Nat.mul_assoc, ← pow_add]
    have hLlt : ((bits &&& 0x3ff) ||| 1) * 2 ^ 2 + m * 2 ^ (level * 9 + 12) < 2 ^ 64 := by
      have hm54 : m * 2 ^ (level * 9 + 12) < 2 ^ 56 := by rw [← hpam]; exact hpab
      omega
    have hpn : ((Mmu.leaf_entry LEVELS level pa bits <<< 2) % 2 ^ 64) &&&
        (2 ^ 64 - (1 <<< (level * 9 + 12))) = pa := by
      rw [hL4, Nat.mod_eq_of_lt hLlt]
      rw [show (1 : Nat) <<< (level * 9 + 12) = 2 ^ (level * 9 + 12) from by
        rw [Nat.shiftLeft_eq, Nat.one_mul]]
      rw [and_high_mask (by omega) hLlt]
      rw [show ((bits &&& 0x3ff) ||| 1) * 2 ^ 2 + m * 2 ^ (level * 9 + 12) =
          ((bits &&& 0x3ff) ||| 1) * 2 ^ 2 + 2 ^ (level * 9 + 12) * m from by ring]
      rw [Nat.add_mul_div_left _ _ (Nat.two_pow_pos _)]
      have hA4 : ((bits &&& 0x3ff) ||| 1) * 2 ^ 2 / 2 ^ (level * 9 + 12) = 0 := by
        apply Nat.div_eq_of_lt
        calc ((bits &&& 0x3ff) ||| 1) * 2 ^ 2 < 2 ^ 10 * 2 ^ 2 :=
              (Nat.mul_lt_mul_right (by norm_num)).mpr haccA
        _ = 2 ^ 12 := by norm_num
        _ ≤ 2 ^ (level * 9 + 12) := Nat.pow_le_pow_right (by norm_num) (by omega)
      rw [hA4, Nat.zero_add, hpam]
    have hvoff : (va + off) &&& ((1 <<< (level * 9 + 12)) - 1) = off := by
      rw [show (1 : Nat) <<< (level * 9 + 12) = 2 ^ (level * 9 + 12) from by
        rw [Nat.shiftLeft_eq, Nat.one_mul]]
      rw [Nat.and_pow_two_sub_one_eq_mod, Nat.add_mod, hva, Nat.zero_add,
        Nat.mod_eq_of_lt hoff, Nat.mod_eq_of_lt hoff]
    rw [hpn, hvoff]
    exact or_eq_add_of_lt (i := level * 9 + 12) hpa hoff

theorem C1_witness :
    ∃ s1, Mmu.do_map 3 4096 0x80000000 0x80000000 0xE6 2 (Mmu.fresh_state 8192) = some s1 ∧
      Mmu.do_virt2phys 3 4096 (0x80000000 + 0x1234) s1 = some (0x80000000 + 0x1234) :=
  C1_page_table_roundtrip 3 4096 8192 0x80000000 0x80000000 0xE6 2 0x1234
    (Or.inl rfl) (by norm_num) (by norm_num) (by norm_num) (by norm_num)
    (by decide) (by decide) (by decide) (by norm_num) (by norm_num)
    (by norm_num) (by norm_num)
